import Mathlib

/-!
# Verification of the clearurl URL-cleaning engine

Shallow embedding of the clearurl library (`src/lib.rs`, `src/rules.rs`,
`src/hooks.rs`) together with the parts of its external collaborators whose
observable behaviour the library relies on (the `url` crate's
`application/x-www-form-urlencoded` parser and serializer, and the `regex`
crate's unanchored `is_match`).

Conventions of the embedding:
* Query strings are modelled at byte level (`List (Fin 256)`), exactly as the
  `form_urlencoded` module of the `url` crate operates on bytes.
* Rust panics (`Option::unwrap` on `None`, out-of-bounds indexing,
  `HashMap` indexing with a missing key) are modelled by an outer `Option`
  layer returning `none`; the typed `Result` of the Rust code is the inner
  `Except`.
* `u64` arithmetic is `Nat` with explicit wrapping modulo `2 ^ 64`.
* Compiled `regex::Regex` objects are modelled as a structure carrying the
  anchored matcher at a position, with `is_match` trying every position
  (the crate's documented unanchored-search semantics).
-/

/-- A byte, the unit of query strings in `form_urlencoded`. -/
abbrev Byte := Fin 256

/-- Convenience: the bytes of an ASCII string literal. -/
def bytesOf (s : String) : List Byte :=
  s.data.map (fun c => (Fin.ofNat c.toNat : Byte))

/-- Value of a hexadecimal digit byte, as accepted by the `url` crate's
percent-decoder (`char::to_digit(16)`: both cases accepted). -/
def hexVal (b : Byte) : Option Nat :=
  if 48 ≤ b.val ∧ b.val ≤ 57 then some (b.val - 48)
  else if 65 ≤ b.val ∧ b.val ≤ 70 then some (b.val - 55)
  else if 97 ≤ b.val ∧ b.val ≤ 102 then some (b.val - 87)
  else none

/-- `form_urlencoded` decoding of one component: replace `+` (0x2B) by space
(0x20) and percent-decode `%XY` for hex digits `X`, `Y`; a malformed escape is
kept verbatim. -/
def formDecode : List Byte → List Byte
  | [] => []
  | [b] => if b.val = 43 then [(32 : Byte)] else [b]
  | [b, h1] =>
    if b.val = 43 then (32 : Byte) :: formDecode [h1]
    else b :: formDecode [h1]
  | b :: h :: l :: rest =>
    if b.val = 43 then (32 : Byte) :: formDecode (h :: l :: rest)
    else if b.val = 37 then
      match hexVal h, hexVal l with
      | some x, some y => (Fin.ofNat (x * 16 + y) : Byte) :: formDecode rest
      | _, _ => b :: formDecode (h :: l :: rest)
    else b :: formDecode (h :: l :: rest)

/-- Bytes that the `form_urlencoded` byte serializer emits unescaped:
ASCII alphanumerics and `*`, `-`, `.`, `_`. -/
def isFormSafe (b : Byte) : Bool :=
  (decide (48 ≤ b.val) && decide (b.val ≤ 57)) ||
  (decide (65 ≤ b.val) && decide (b.val ≤ 90)) ||
  (decide (97 ≤ b.val) && decide (b.val ≤ 122)) ||
  decide (b.val = 42) || decide (b.val = 45) || decide (b.val = 46) ||
  decide (b.val = 95)

/-- Upper-case hexadecimal digit byte for a value `< 16`. -/
def hexDigit (n : Nat) : Byte :=
  if n < 10 then (Fin.ofNat (48 + n) : Byte) else (Fin.ofNat (55 + n) : Byte)

/-- `form_urlencoded` serialization of one byte: space becomes `+`, safe bytes
stay, everything else becomes `%XY` with upper-case hex. -/
def encodeByte (b : Byte) : List Byte :=
  if b.val = 32 then [(43 : Byte)]
  else if isFormSafe b then [b]
  else [(37 : Byte), hexDigit (b.val / 16), hexDigit (b.val % 16)]

/-- `form_urlencoded` serialization of a component. -/
def formEncode (s : List Byte) : List Byte :=
  (s.map encodeByte).flatten

/-- Split one `&`-separated piece at its first `=` (0x3D); a piece with no `=`
yields an empty value, exactly like `splitn(2, '=')` in the parser. -/
def splitKV : List Byte → List Byte × List Byte
  | [] => ([], [])
  | b :: rest =>
    if b.val = 61 then ([], rest)
    else
      let kv := splitKV rest
      (b :: kv.1, kv.2)

/-- `form_urlencoded::parse`: split the raw query on `&` (0x26), skip empty
pieces, split each piece at its first `=` and decode name and value. -/
def formParse (q : List Byte) : List (List Byte × List Byte) :=
  ((q.splitOn (38 : Byte)).filter (fun p => !p.isEmpty)).map
    (fun p =>
      let kv := splitKV p
      (formDecode kv.1, formDecode kv.2))

/-- One serialized pair, as built by the query-pair serializer:
`append_key_only` for an empty value (no `=` emitted), `append_pair`
otherwise. -/
def serializePair (kv : List Byte × List Byte) : List Byte :=
  if kv.2.isEmpty then formEncode kv.1
  else formEncode kv.1 ++ (61 : Byte) :: formEncode kv.2

/-- The full serialized query: pieces joined by `&`. -/
def serializePairs (l : List (List Byte × List Byte)) : List Byte :=
  [(38 : Byte)].intercalate (l.map serializePair)

/-- A compiled `regex::Regex`.  `matchesAt t` is the anchored question "does
the pattern match some prefix of `t`"; the crate's `is_match` searches at every
position. -/
structure Regex where
  matchesAt : List Byte → Bool

/-- `regex::Regex::is_match`: true iff the pattern is found anywhere in the
haystack (unanchored search over all start positions, including the end). -/
def Regex.is_match (re : Regex) (s : List Byte) : Bool :=
  s.tails.any re.matchesAt

/-- A parsed URL (`url::Url`), restricted to the components the engine
observes: scheme, domain (`Url::domain`, absent for no-host or IP-host URLs),
path segments, raw query bytes and fragment. -/
structure Url where
  scheme : String
  domain : Option String
  path : List String
  query : Option (List Byte)
  fragment : Option String
deriving DecidableEq, Repr

/-- A per-domain rule, as used by `lib.rs` (`rules::Rule`): redirect flag,
compiled denylist, hook names. -/
structure Rule where
  redirect : Bool
  rules : List Regex
  post_hooks : List String

/-- The rule store (`rules::Rules`, a `HashMap<String, Arc<Rule>>`), modelled
as an association list with `HashMap::get` = first-match lookup. -/
abbrev RuleStore := List (String × Rule)

/-- `UrlCleanError` from `lib.rs`.  Error payloads coming from foreign crates
(`url::ParseError`, `reqwest::Error`) are carried as strings. -/
inductive UrlCleanError where
  | UrlParseError (msg : String)
  | NoDomain
  | NoQuery
  | RedirectFail (msg : String)
  | NoMatchRule
  | NothingToClear
  | HookExecutionError (name : String) (msg : String)
deriving DecidableEq, Repr

/-- A post-processing hook (`HookFn = fn(&Url) -> anyhow::Result<Url>`). -/
abbrev Hook := Url → Except String Url

/-- The hook registry (`hooks::POST_HOOKS`), passed explicitly. -/
abbrev HookRegistry := List (String × Hook)

namespace UrlCleaner

/-- `UrlCleaner::clean` (lib.rs:71-113): reject an empty denylist
(`NoMatchRule`), reject a missing or empty query (`NoQuery`), keep exactly the
query pairs whose key no denylist pattern matches, rebuild the query from the
survivors in order (empty values via `append_key_only`), and signal
`NothingToClear` when the rebuilt query equals the original byte-for-byte. -/
def clean (rule : Rule) (url : Url) : Except UrlCleanError Url :=
  if rule.rules.isEmpty then .error .NoMatchRule
  else
    match url.query with
    | none => .error .NoQuery
    | some q =>
      if q.isEmpty then .error .NoQuery
      else
        let survivors := (formParse q).filter
          (fun kv => !(rule.rules.any (fun re => re.is_match kv.1)))
        if survivors.isEmpty then .ok { url with query := none }
        else
          let q2 := serializePairs survivors
          if q2 = q then .error .NothingToClear
          else .ok { url with query := some q2 }

end UrlCleaner

/-- The rule lookup of `UrlCleaner::clear` (lib.rs:127-135):
`rules.get(domain).cloned().unwrap_or(rules.get("default").cloned().unwrap())`.
`Option::unwrap_or` evaluates its argument eagerly, so the `.unwrap()` on the
`"default"` entry runs on every lookup: a store without a `"default"` key
panics (modelled by `none`) even when `domain` itself has an entry. -/
def getRule (store : RuleStore) (domain : String) : Option Rule :=
  match store.lookup ("default") with
  | none => none
  | some d => some ((store.lookup domain).getD d)

/-- The hook chain of `UrlCleaner::clear` (lib.rs:153-162):
`post_hooks.iter().flat_map(|n| Some((n, POST_HOOKS.get(n)?))).try_fold(...)`.
The `?` inside the `flat_map` closure silently drops names that are absent
from the registry; `try_fold` applies the present hooks left to right and
stops at the first failure, wrapping it as `HookExecutionError(name, msg)`. -/
def runHooks (registry : HookRegistry) (names : List String) (u : Url) :
    Except UrlCleanError Url :=
  (names.filterMap (fun n => (registry.lookup n).map (fun f => (n, f)))).foldlM
    (fun prev p =>
      match p.2 prev with
      | .ok v => .ok v
      | .error msg => .error (.HookExecutionError p.1 msg)) u

namespace UrlCleaner

/-- The tail of `UrlCleaner::clear` after the rule for the (possibly
redirect-resolved) URL is known (lib.rs:146-164): run `clean`; a `NoQuery`
result is forgiven when the rule has hooks (the unfiltered URL is passed on);
then fold through the hook chain. -/
def afterLookup (registry : HookRegistry) (rule : Rule) (url : Url) :
    Except UrlCleanError Url :=
  match clean rule url with
  | .ok newUrl => runHooks registry rule.post_hooks newUrl
  | .error .NoQuery =>
    if rule.post_hooks.isEmpty then .error .NoQuery
    else runHooks registry rule.post_hooks url
  | .error e => .error e

/-- `UrlCleaner::clear` (lib.rs:124-165), starting from the parsed URL (the
`Url::parse` step belongs to the `url` crate).  `resolver` is the HTTP
transport used when `rule.redirect` is set: it follows the whole redirect
chain and returns the final URL, or a transport error (`RedirectFail`).
The outer `Option` models the panics of the Rust code: `none` is the
`unwrap` on a missing `"default"` entry (via `getRule`) and the
`url.domain().unwrap()` on a resolved URL without a domain. -/
def clear (store : RuleStore) (registry : HookRegistry)
    (resolver : Url → Except String Url) (url0 : Url) :
    Option (Except UrlCleanError Url) :=
  match url0.domain with
  | none => some (.error .NoDomain)
  | some domain0 =>
    match getRule store domain0 with
    | none => none
    | some rule0 =>
      if rule0.redirect then
        match resolver url0 with
        | .error e => some (.error (.RedirectFail e))
        | .ok url1 =>
          match url1.domain with
          | none => none
          | some domain1 =>
            match getRule store domain1 with
            | none => none
            | some rule1 => some (afterLookup registry rule1 url1)
      else some (afterLookup registry rule0 url0)

end UrlCleaner

namespace RulesCfg

/-- One configuration entry (`rules.rs` `ConfigData`): optional subdomain
list, redirect flag, denylist pattern strings. -/
structure ConfigData where
  sub : Option (List String)
  redirect : Bool
  ban : List String

/-- The per-domain rule produced by `RulesConfig::expand` (`rules.rs`
`Rule`).  A compiled `regex::Regex` is represented by its pattern source
(compilation is the regex crate; an invalid pattern panics at construction
time, outside every claim considered here). -/
structure Rule where
  redirect : Bool
  rules : List String
deriving DecidableEq, Repr

/-- `HashMap::insert`: overwrite any existing binding of the key. -/
def hmInsert (m : List (String × Rule)) (k : String) (v : Rule) :
    List (String × Rule) :=
  (k, v) :: m.filter (fun kv => kv.1 ≠ k)

/-- `RulesConfig::expand` (rules.rs:47-76): for each configuration entry build
one `Rule`; when the entry has a subdomain list, insert the rule under every
`"{sub}.{base}"` key.  The source has no branch for entries without a
subdomain list: they are dropped (the built `r` is unused). -/
def expand (cfg : List (String × ConfigData)) : List (String × Rule) :=
  cfg.foldl
    (fun rules bd =>
      let r : Rule := ⟨bd.2.redirect, bd.2.ban⟩
      match bd.2.sub with
      | some sub => sub.foldl (fun rules s => hmInsert rules (s ++ "." ++ bd.1) r) rules
      | none => rules)
    []

end RulesCfg

/-- The base-58 alphabet of the BV-identifier decoder (`hooks.rs` `TABLE`). -/
def TABLE : List Char :=
  ("fZodR9XQDSUm21yCkr6zBqiveYah8bt4xsWpHnJE7jL5VG3guMTKNPAwcF").data

/-- `hooks.rs` `TRANSLATE`: the character-to-index map built from `TABLE` by
enumeration (the alphabet has no duplicate characters, so first-match lookup
agrees with the `HashMap`).  `HashMap` indexing with a missing key panics in
Rust; the caller treats `none` accordingly. -/
def TRANSLATE (c : Char) : Option Nat :=
  (TABLE.zip (List.range TABLE.length)).lookup c

/-- `hooks.rs` `SELECT`: positions of the six significant characters. -/
def SELECT : List Nat := [11, 10, 3, 8, 4, 6]

/-- `hooks.rs` `XOR` constant. -/
def XOR : Nat := 177451812

/-- `hooks.rs` `ADD` constant. -/
def ADD : Nat := 8728348608

/-- One step of the `bv_to_av` fold (hooks.rs:54-59): select the character at
position `p.1`, translate it through the alphabet, and add
`translated * 58 ^ p.2` to the accumulator.  `none` models the two panics:
`chars[select]` out of bounds and `TRANSLATE[&char]` on a missing key. -/
def bvFoldStep (chars : List Char) (acc : Option Nat) (p : Nat × Nat) :
    Option Nat :=
  match acc with
  | none => none
  | some a =>
    match chars.get? p.1 with
    | none => none
    | some c =>
      match TRANSLATE c with
      | none => none
      | some t => some (a + t * 58 ^ p.2)

/-- `hooks.rs::bv_to_av` (hooks.rs:33-70).  The outer `Option` models panics:
* `chars[select]` with an identifier shorter than 12 characters is an
  out-of-bounds index (the source's length guard `!segments.len() == 12`
  applies the bitwise NOT to the segment *count*, so it never fires for any
  realistic path);
* `TRANSLATE[&char]` with a character outside the alphabet is a `HashMap`
  index panic.
`u64` subtraction wraps modulo `2 ^ 64` (release semantics).  The rebuilt URL
replaces the whole path by `["video", "av{id}", ""]`. -/
def bv_to_av (input : Url) : Option (Except String Url) :=
  match input.domain with
  | none => some (.error ("domain is empty"))
  | some _ =>
    match input.path with
    | [] => some (.error ("path segment is too short"))
    | [_] => some (.error ("path segment is too short"))
    | seg0 :: seg1 :: restSegs =>
      if seg0 ≠ "video" then some (.error ("not a video URL"))
      else
        -- `!segments.len() == 12` with `!` the bitwise NOT on `usize`
        if ¬ (("BV").data.isPrefixOf seg1.data) = true
            ∨ (2 ^ 64 - 1) - (2 + restSegs.length) = 12 then
          some (.error ("not a valid BV-encoded video URL"))
        else
          let chars := seg1.data
          match (SELECT.zip (List.range 6)).foldl (bvFoldStep chars) (some 0) with
          | none => none
          | some result =>
            let avid := ((result + 2 ^ 64 - ADD) % 2 ^ 64) ^^^ XOR
            some (.ok { input with
              path := ["video", "av" ++ toString avid, ""] })

/-- `hooks.rs::fixup_twitter` (hooks.rs:84-98): error out unless the domain is
`twitter.com` or `x.com`; otherwise replace only the host by the mirror
domain (`set_host` on these fixed strings cannot fail). -/
def fixup_twitter (input : Url) : Except String Url :=
  match input.domain with
  | none => .error ("domain is empty")
  | some d =>
    if d = "twitter.com" then .ok { input with domain := some ("fxtwitter.com") }
    else if d = "x.com" then .ok { input with domain := some ("fixupx.com") }
    else .error ("not a valid twitter URL")

/-! ## Properties of the form-urlencoded codec -/

theorem val43 : ((43 : Byte)).val = 43 := rfl
theorem val37 : ((37 : Byte)).val = 37 := rfl

theorem formDecode_cons_plus (rest : List Byte) :
    formDecode ((43 : Byte) :: rest) = (32 : Byte) :: formDecode rest := by
  rcases rest with _ | ⟨h1, _ | ⟨l1, t⟩⟩ <;> simp [formDecode, val43]

theorem formDecode_cons_plain (b : Byte) (rest : List Byte)
    (h43 : b.val ≠ 43) (h37 : b.val ≠ 37) :
    formDecode (b :: rest) = b :: formDecode rest := by
  rcases rest with _ | ⟨h1, _ | ⟨l1, t⟩⟩ <;> simp [formDecode, h43, h37]

theorem formDecode_escape (h l : Byte) (x y : Nat) (rest : List Byte)
    (hh : hexVal h = some x) (hl : hexVal l = some y) :
    formDecode ((37 : Byte) :: h :: l :: rest) =
      (Fin.ofNat (x * 16 + y) : Byte) :: formDecode rest := by
  simp [formDecode, hh, hl, val37, val43]

set_option maxRecDepth 2000 in
theorem encodeByte_sep_free_bool :
    ∀ b : Byte, (encodeByte b).all (fun c => !(c.val == 38) && !(c.val == 61)) = true := by
  decide

theorem encodeByte_sep_free (b : Byte) : ∀ c ∈ encodeByte b, c.val ≠ 38 ∧ c.val ≠ 61 := by
  have h := encodeByte_sep_free_bool b
  rw [List.all_eq_true] at h
  intro c hc
  have hc2 := h c hc
  simp only [Bool.and_eq_true, Bool.not_eq_true', beq_eq_false_iff_ne] at hc2
  exact hc2

set_option maxRecDepth 2000 in
theorem encodeByte_ne_nil_bool : ∀ b : Byte, (encodeByte b).isEmpty = false := by decide

theorem encodeByte_ne_nil (b : Byte) : encodeByte b ≠ [] := by
  have h := encodeByte_ne_nil_bool b
  simpa [List.isEmpty_iff] using h

set_option maxRecDepth 2000 in
theorem isFormSafe_not_special_bool :
    ∀ b : Byte, ((!isFormSafe b) || (!(b.val == 43) && !(b.val == 37))) = true := by decide

theorem isFormSafe_not_special (b : Byte) (h : isFormSafe b = true) :
    b.val ≠ 43 ∧ b.val ≠ 37 := by
  have hb := isFormSafe_not_special_bool b
  rw [h] at hb
  simp only [Bool.not_true, Bool.false_or, Bool.and_eq_true, Bool.not_eq_true',
    beq_eq_false_iff_ne] at hb
  exact hb

theorem hexVal_hexDigit : ∀ n : Fin 16, hexVal (hexDigit n.val) = some n.val := by decide

theorem formDecode_encodeByte (b : Byte) (rest : List Byte) :
    formDecode (encodeByte b ++ rest) = b :: formDecode rest := by
  by_cases h32 : b.val = 32
  · have hb : b = (32 : Byte) := Fin.ext h32
    subst hb
    show formDecode ((43 : Byte) :: rest) = _
    rw [formDecode_cons_plus]
  · by_cases hsafe : isFormSafe b = true
    · have hns := isFormSafe_not_special b hsafe
      simp only [encodeByte, if_neg h32, if_pos hsafe, List.cons_append, List.nil_append]
      exact formDecode_cons_plain b rest hns.1 hns.2
    · simp only [encodeByte, if_neg h32, if_neg hsafe, List.cons_append, List.nil_append]
      have hdiv : b.val / 16 < 16 := by omega
      have hmod : b.val % 16 < 16 := Nat.mod_lt _ (by omega)
      have h1 := hexVal_hexDigit ⟨b.val / 16, hdiv⟩
      have h2 := hexVal_hexDigit ⟨b.val % 16, hmod⟩
      simp only at h1 h2
      rw [formDecode_escape _ _ _ _ rest h1 h2]
      have hval : b.val / 16 * 16 + b.val % 16 = b.val := by omega
      have hofn : (Fin.ofNat (b.val / 16 * 16 + b.val % 16) : Byte) = b := by
        rw [hval]
        exact Fin.ext (Nat.mod_eq_of_lt b.isLt)
      rw [hofn]

theorem formDecode_formEncode (s : List Byte) :
    formDecode (formEncode s) = s := by
  induction s with
  | nil => rfl
  | cons b rest ih =>
    show formDecode (encodeByte b ++ formEncode rest) = b :: rest
    rw [formDecode_encodeByte, ih]

theorem formEncode_sep_free (s : List Byte) :
    ∀ c ∈ formEncode s, c.val ≠ 38 ∧ c.val ≠ 61 := by
  intro c hc
  simp only [formEncode, List.mem_flatten, List.mem_map] at hc
  obtain ⟨piece, ⟨b, _, rfl⟩, hcp⟩ := hc
  exact encodeByte_sep_free b c hcp

theorem splitKV_no_eq (p : List Byte) (h : ∀ c ∈ p, c.val ≠ 61) :
    splitKV p = (p, []) := by
  induction p with
  | nil => rfl
  | cons b rest ih =>
    rw [splitKV]
    rw [if_neg (h b (List.mem_cons_self b rest))]
    simp only [ih (fun c hc => h c (List.mem_cons_of_mem b hc))]

theorem splitKV_append (a b' : List Byte) (h : ∀ c ∈ a, c.val ≠ 61) :
    splitKV (a ++ (61 : Byte) :: b') = (a, b') := by
  induction a with
  | nil =>
    show splitKV ((61 : Byte) :: b') = ([], b')
    rw [splitKV]
    rw [if_pos (show ((61 : Byte)).val = 61 from rfl)]
  | cons x rest ih =>
    rw [List.cons_append, splitKV]
    rw [if_neg (h x (List.mem_cons_self x rest))]
    simp only [ih (fun c hc => h c (List.mem_cons_of_mem x hc))]

theorem serializePair_ne_nil (kv : List Byte × List Byte)
    (h : kv.1 ≠ [] ∨ kv.2 ≠ []) : serializePair kv ≠ [] := by
  rcases kv with ⟨k, v⟩
  unfold serializePair
  by_cases hve : v.isEmpty
  · rw [if_pos hve]
    rcases h with hk | hv
    · rcases k with _ | ⟨b, rest⟩
      · exact absurd rfl hk
      · show encodeByte b ++ formEncode rest ≠ []
        intro hcon
        exact encodeByte_ne_nil b (List.append_eq_nil.mp hcon).1
    · exact absurd (List.isEmpty_iff.mp hve) hv
  · rw [if_neg hve]
    intro hcon
    exact List.cons_ne_nil _ _ (List.append_eq_nil.mp hcon).2

theorem serializePair_amp_free (kv : List Byte × List Byte) :
    ∀ c ∈ serializePair kv, c.val ≠ 38 := by
  intro c hc
  rcases kv with ⟨k, v⟩
  unfold serializePair at hc
  by_cases hve : v.isEmpty
  · rw [if_pos hve] at hc
    exact (formEncode_sep_free k c hc).1
  · rw [if_neg hve] at hc
    rcases List.mem_append.mp hc with h1 | h2
    · exact (formEncode_sep_free k c h1).1
    · rcases List.mem_cons.mp h2 with h61 | h3
      · subst h61
        decide
      · exact (formEncode_sep_free v c h3).1

theorem parsePiece_serializePair (kv : List Byte × List Byte) :
    (formDecode (splitKV (serializePair kv)).1,
     formDecode (splitKV (serializePair kv)).2) = kv := by
  rcases kv with ⟨k, v⟩
  unfold serializePair
  by_cases hve : v.isEmpty
  · rw [if_pos hve]
    rw [splitKV_no_eq (formEncode k) (fun c hc => (formEncode_sep_free k c hc).2)]
    rw [List.isEmpty_iff] at hve
    simp only [formDecode_formEncode, hve]
    rfl
  · rw [if_neg hve]
    rw [splitKV_append (formEncode k) (formEncode v)
      (fun c hc => (formEncode_sep_free k c hc).2)]
    simp only [formDecode_formEncode]

theorem formParse_serializePairs (l : List (List Byte × List Byte))
    (h : ∀ kv ∈ l, kv.1 ≠ [] ∨ kv.2 ≠ []) :
    formParse (serializePairs l) = l := by
  rcases hl : l with _ | ⟨kv0, rest⟩
  · rfl
  · rw [← hl]
    have hlne : l ≠ [] := by rw [hl]; exact List.cons_ne_nil _ _
    unfold formParse serializePairs
    rw [List.splitOn_intercalate (l.map serializePair) ((38 : Byte))
      (by
        intro p hp
        simp only [List.mem_map] at hp
        obtain ⟨kv, _, rfl⟩ := hp
        intro hmem
        exact serializePair_amp_free kv _ hmem rfl)
      (by simpa using hlne)]
    rw [List.filter_eq_self.mpr
      (by
        intro p hp
        simp only [List.mem_map] at hp
        obtain ⟨kv, hkv, rfl⟩ := hp
        simpa [List.isEmpty_iff] using serializePair_ne_nil kv (h kv hkv))]
    rw [List.map_map]
    have hpt : ∀ kv ∈ l,
        ((fun p => (formDecode (splitKV p).1, formDecode (splitKV p).2)) ∘ serializePair) kv
          = id kv := by
      intro kv _
      exact parsePiece_serializePair kv
    rw [List.map_congr_left hpt, List.map_id]

/-! ## Claim theorems -/

/-- C1 (code bug): with a rule store lacking a `"default"` entry, `clear`
never returns `NoMatchRule` — the eagerly evaluated
`rules.get("default").cloned().unwrap()` panics (modelled as `none`), here
even though the host `a.com` has its own entry. -/
theorem clear_missing_default_panics :
    UrlCleaner.clear
      [(("a.com"), ⟨false, [⟨fun _ => false⟩], []⟩)] [] (fun u => .ok u)
      { scheme := "https", domain := some ("a.com"), path := [],
        query := some (bytesOf ("x=1")), fragment := none } = none := rfl

/-- C3 (code bug): `RulesConfig::expand` has no insertion branch for an entry
without a subdomain list, so a configuration consisting of the literal
`"default"` entry expands to an empty store instead of mapping `"default"`
to its rule. -/
theorem expand_drops_no_sub_entries :
    RulesCfg.expand [(("default"), ⟨none, false, [("^utm_")]⟩)] = [] := rfl

/-- C9 (code bug): a second path segment with the `BV` prefix but the wrong
length is not rejected with an error — the vacuous length guard lets it
through and `chars[11]` panics (modelled as `none`). -/
theorem bv_to_av_short_id_panics :
    bv_to_av
      { scheme := "https", domain := some ("www.bilibili.com"),
        path := [("video"), ("BVxx")], query := none, fragment := none }
      = none := rfl

/-- C8 counterexample: on a well-formed identifier without a trailing slash
the hook does not merely replace the identifier segment: it rebuilds the
whole path as `["video", "av{id}", ""]`, appending a trailing empty
segment (and it would likewise drop any further segments). -/
theorem bv_to_av_path_rebuild :
    bv_to_av
      { scheme := "https", domain := some ("video.example"),
        path := [("video"), ("BV1nY411r7o1")], query := some (bytesOf ("p=1")),
        fragment := none }
      = some (.ok
          { scheme := "https", domain := some ("video.example"),
            path := [("video"), ("av267692137"), ("")],
            query := some (bytesOf ("p=1")), fragment := none })
    ∧ ([("video"), ("av267692137"), ("")] : List String)
        ≠ ([("video"), ("BV1nY411r7o1")] : List String).set 1 ("av267692137") :=
  ⟨rfl, by decide⟩

/-- C4 counterexample: with a denylist pattern that matches nothing, the
empty-value parameter `a=` is rebuilt as the key-only parameter `a`: the
rebuilt query is not byte-identical to the original, so empty-value and
key-only parameters are not kept distinct. -/
theorem clean_empty_value_collapsed :
    UrlCleaner.clean ⟨false, [⟨fun _ => false⟩], []⟩
      { scheme := "https", domain := some ("e.com"), path := [],
        query := some (bytesOf ("a=&b=1")), fragment := none }
      = .ok
          { scheme := "https", domain := some ("e.com"), path := [],
            query := some (bytesOf ("a&b=1")), fragment := none }
    ∧ bytesOf ("a&b=1") ≠ bytesOf ("a=&b=1") := ⟨rfl, by decide⟩

/-- C6 counterexample: a rule with an empty denylist and one configured hook,
applied to a URL without a query, yields `NoMatchRule` — the URL is not
passed into the hook chain, and `NoMatchRule` is produced although the URL
has no query string (the empty-denylist check precedes the query check). -/
theorem clear_empty_denylist_noquery :
    UrlCleaner.clear [(("default"), ⟨false, [], [("h")]⟩)]
      [(("h"), fun u => .ok u)] (fun u => .ok u)
      { scheme := "https", domain := some ("e.com"), path := [],
        query := none, fragment := none }
      = some (.error .NoMatchRule) := rfl

/-- C2 counterexample: a rule whose hook list names `unknown-hook`, absent
from an empty registry, does not make `clear` fail with
`HookExecutionError("unknown-hook", "not found")`: the name is silently
skipped and the cleaned URL is returned. -/
theorem clear_unknown_hook_skipped :
    UrlCleaner.clear
      [(("default"),
        ⟨false, [⟨fun t => (bytesOf ("utm")).isPrefixOf t⟩], [("unknown-hook")]⟩)]
      [] (fun u => .ok u)
      { scheme := "https", domain := some ("e.com"), path := [],
        query := some (bytesOf ("utm=1&p=2")), fragment := none }
      = some (.ok
          { scheme := "https", domain := some ("e.com"), path := [],
            query := some (bytesOf ("p=2")), fragment := none }) := rfl

/-- C5 counterexample: cleaning `?utm=1` removes the whole query; running
`clear` a second time on the already-cleaned URL under the same rule yields
`NoQuery`, not `NothingToClear`. -/
theorem clear_cleaned_again_noquery :
    (UrlCleaner.clear
      [(("default"), ⟨false, [⟨fun t => (bytesOf ("utm")).isPrefixOf t⟩], []⟩)]
      [] (fun u => .ok u)
      { scheme := "https", domain := some ("e.com"), path := [],
        query := some (bytesOf ("utm=1")), fragment := none }
      = some (.ok
          { scheme := "https", domain := some ("e.com"), path := [],
            query := none, fragment := none }))
    ∧ (UrlCleaner.clear
      [(("default"), ⟨false, [⟨fun t => (bytesOf ("utm")).isPrefixOf t⟩], []⟩)]
      [] (fun u => .ok u)
      { scheme := "https", domain := some ("e.com"), path := [],
        query := none, fragment := none }
      = some (.error .NoQuery)) := ⟨rfl, rfl⟩

/-- C10: the domain-substitution hook fails for every URL whose domain is not
`twitter.com` or `x.com` (including URLs without a domain), and for the two
known domains it returns the input URL unchanged in every component except
the domain, which becomes the mapped mirror domain. -/
theorem fixup_twitter_spec (u : Url) :
    (u.domain ≠ some ("twitter.com") → u.domain ≠ some ("x.com") →
      ∃ e, fixup_twitter u = .error e)
    ∧ (u.domain = some ("twitter.com") →
        fixup_twitter u = .ok { u with domain := some ("fxtwitter.com") })
    ∧ (u.domain = some ("x.com") →
        fixup_twitter u = .ok { u with domain := some ("fixupx.com") }) := by
  refine ⟨?_, ?_, ?_⟩
  · intro h1 h2
    rcases hd : u.domain with _ | d
    · exact ⟨("domain is empty"), by simp [fixup_twitter, hd]⟩
    · have ht : ¬ d = "twitter.com" := fun h => h1 (h ▸ hd)
      have hx : ¬ d = "x.com" := fun h => h2 (h ▸ hd)
      exact ⟨("not a valid twitter URL"), by simp [fixup_twitter, hd, ht, hx]⟩
  · intro hc
    simp [fixup_twitter, hc]
  · intro hc
    simp [fixup_twitter, hc]

/-- C10 witness: the twitter branch of `fixup_twitter_spec` at a concrete
URL. -/
theorem fixup_twitter_spec_w :
    fixup_twitter
      { scheme := "https", domain := some ("twitter.com"),
        path := [("a"), ("status"), ("1")], query := some (bytesOf ("t=1")),
        fragment := none }
      = .ok
        { scheme := "https", domain := some ("fxtwitter.com"),
          path := [("a"), ("status"), ("1")], query := some (bytesOf ("t=1")),
          fragment := none } :=
  (fixup_twitter_spec
    { scheme := "https", domain := some ("twitter.com"),
      path := [("a"), ("status"), ("1")], query := some (bytesOf ("t=1")),
      fragment := none }).2.1 rfl

/-- C7: when the rule matched for the original URL has `redirect = true`,
`clear` resolves the URL once through the transport, re-runs the rule lookup
exactly once on the resolved URL's domain, and continues the pipeline
(query filtering, hooks) with that destination rule — the right-hand side
does not mention the resolver, so no second resolution happens even though
the destination rule also has `redirect = true`. -/
theorem clear_redirect_destination_rule (store : RuleStore)
    (registry : HookRegistry) (resolver : Url → Except String Url)
    (u v : Url) (d d' : String) (r r' : Rule)
    (hd : u.domain = some d) (hr : getRule store d = some r)
    (hred : r.redirect = true) (hres : resolver u = .ok v)
    (hd' : v.domain = some d') (hr' : getRule store d' = some r')
    (hred' : r'.redirect = true) :
    UrlCleaner.clear store registry resolver u
      = some (UrlCleaner.afterLookup registry r' v) := by
  unfold UrlCleaner.clear
  rw [hd]
  simp only [hr, hred, if_true, hres, hd', hr']

/-- C7 witness: a concrete two-hop store in which the origin and destination
rules both carry `redirect = true`. -/
theorem clear_redirect_destination_rule_w :
    UrlCleaner.clear
      [(("a.com"), ⟨true, [⟨fun _ => false⟩], []⟩),
       (("b.com"), ⟨true, [⟨fun _ => true⟩], []⟩),
       (("default"), ⟨false, [⟨fun _ => false⟩], []⟩)]
      []
      (fun _ => .ok
        { scheme := "https", domain := some ("b.com"), path := [],
          query := some (bytesOf ("x=1")), fragment := none })
      { scheme := "https", domain := some ("a.com"), path := [],
        query := none, fragment := none }
      = some (UrlCleaner.afterLookup [] ⟨true, [⟨fun _ => true⟩], []⟩
          { scheme := "https", domain := some ("b.com"), path := [],
            query := some (bytesOf ("x=1")), fragment := none }) :=
  clear_redirect_destination_rule _ _ _ _ _ _ _ _ _
    rfl rfl rfl rfl rfl rfl rfl

/-- C2 (amended): the hook chain folds the URL through the rule's hook names
in declared order — for present hooks `[a, b]` the result is `b` applied to
`a`'s output; a present hook's internal failure becomes
`HookExecutionError(name, message)` with the hook's own error text, and the
chain stops there (the result does not depend on the later hook); but a name
absent from the registry is silently skipped, not an error. -/
theorem hook_chain_amended (registry : HookRegistry) (a b : String)
    (f g : Hook) (u : Url)
    (ha : registry.lookup a = some f) (hb : registry.lookup b = some g) :
    (runHooks registry [a, b] u =
      match f u with
      | .ok v =>
        match g v with
        | .ok w => .ok w
        | .error m => .error (.HookExecutionError b m)
      | .error m => .error (.HookExecutionError a m))
    ∧ ∀ (n : String) (names1 names2 : List String) (w : Url),
        registry.lookup n = none →
        runHooks registry (names1 ++ n :: names2) w
          = runHooks registry (names1 ++ names2) w := by
  constructor
  · unfold runHooks
    simp only [List.filterMap_cons, ha, hb, Option.map_some, List.filterMap_nil,
      List.foldlM_cons, List.foldlM_nil]
    rcases hfu : f u with m | v
    · simp [hfu, Except.instMonad, Except.bind]
    · rcases hgv : g v with m | w <;>
        simp [hfu, hgv, Except.instMonad, Except.bind, Except.pure]
  · intro n names1 names2 w hn
    unfold runHooks
    rw [List.filterMap_append, List.filterMap_append, List.filterMap_cons, hn]
    simp

/-- C2 witness: `hook_chain_amended` applied to a two-hook registry. -/
theorem hook_chain_amended_w :
    runHooks
      [(("A"), fun w => .ok { w with path := [("a")] }),
       (("B"), fun w => .ok { w with fragment := some ("b") })]
      [("A"), ("B")]
      { scheme := "https", domain := some ("e.com"), path := [],
        query := none, fragment := none }
      = .ok
          { scheme := "https", domain := some ("e.com"), path := [("a")],
            query := none, fragment := some ("b") } :=
  (hook_chain_amended
    [(("A"), fun w => .ok { w with path := [("a")] }),
     (("B"), fun w => .ok { w with fragment := some ("b") })]
    ("A") ("B") _ _
    { scheme := "https", domain := some ("e.com"), path := [],
      query := none, fragment := none }
    rfl rfl).1

/-- Helper: `clear` for a non-redirect rule is the post-lookup pipeline. -/
theorem clear_no_redirect (store : RuleStore) (registry : HookRegistry)
    (resolver : Url → Except String Url) (u : Url) (d : String) (rule : Rule)
    (hd : u.domain = some d) (hr : getRule store d = some rule)
    (hred : rule.redirect = false) :
    UrlCleaner.clear store registry resolver u
      = some (UrlCleaner.afterLookup registry rule u) := by
  unfold UrlCleaner.clear
  rw [hd]
  simp only [hr, hred, Bool.false_eq_true, if_false]

/-- C6 (amended): when the matched rule's denylist is empty, `clear` returns
`NoMatchRule` regardless of the query — the empty-denylist check precedes the
query check; when the denylist is non-empty and the URL has a missing or
empty query, the URL passes unchanged into the hook chain if the rule has at
least one hook, and `clear` returns `NoQuery` if it has none. -/
theorem clear_empty_query_amended (store : RuleStore) (registry : HookRegistry)
    (resolver : Url → Except String Url) (u : Url) (d : String) (rule : Rule)
    (hd : u.domain = some d) (hr : getRule store d = some rule)
    (hred : rule.redirect = false) :
    (rule.rules = [] →
      UrlCleaner.clear store registry resolver u = some (.error .NoMatchRule))
    ∧ (rule.rules ≠ [] → (u.query = none ∨ u.query = some []) →
        rule.post_hooks ≠ [] →
        UrlCleaner.clear store registry resolver u
          = some (runHooks registry rule.post_hooks u))
    ∧ (rule.rules ≠ [] → (u.query = none ∨ u.query = some []) →
        rule.post_hooks = [] →
        UrlCleaner.clear store registry resolver u = some (.error .NoQuery)) := by
  rw [clear_no_redirect store registry resolver u d rule hd hr hred]
  refine ⟨?_, ?_, ?_⟩
  · intro hrules
    unfold UrlCleaner.afterLookup UrlCleaner.clean
    rw [hrules]
    rfl
  · intro hrules hq hhooks
    have hclean : UrlCleaner.clean rule u = .error .NoQuery := by
      unfold UrlCleaner.clean
      rw [if_neg (by simpa [List.isEmpty_iff] using hrules)]
      rcases hq with hq | hq <;> rw [hq] <;> rfl
    unfold UrlCleaner.afterLookup
    rw [hclean]
    rw [if_neg (by simpa [List.isEmpty_iff] using hhooks)]
  · intro hrules hq hhooks
    have hclean : UrlCleaner.clean rule u = .error .NoQuery := by
      unfold UrlCleaner.clean
      rw [if_neg (by simpa [List.isEmpty_iff] using hrules)]
      rcases hq with hq | hq <;> rw [hq] <;> rfl
    unfold UrlCleaner.afterLookup
    rw [hclean]
    rw [if_pos (by simpa [List.isEmpty_iff] using hhooks)]

/-- C6 witness: the no-hooks conjunct of `clear_empty_query_amended` at a
concrete store and URL. -/
theorem clear_empty_query_amended_w :
    UrlCleaner.clear [(("default"), ⟨false, [⟨fun _ => false⟩], []⟩)] []
      (fun w => .ok w)
      { scheme := "https", domain := some ("e.com"), path := [],
        query := none, fragment := none }
      = some (.error .NoQuery) :=
  (clear_empty_query_amended [(("default"), ⟨false, [⟨fun _ => false⟩], []⟩)]
    [] (fun w => .ok w)
    { scheme := "https", domain := some ("e.com"), path := [],
      query := none, fragment := none }
    ("e.com") ⟨false, [⟨fun _ => false⟩], []⟩ rfl rfl rfl).2.2
    (by simp) (Or.inl rfl) rfl

/-- C4 (amended): for a non-empty query and a non-empty denylist, `clean`
keeps a parsed query pair exactly when no denylist pattern finds a match
anywhere inside the key (values are never consulted), the surviving pairs
stay in their original order (the survivor list is a sublist of the parsed
list), and the query is rebuilt from exactly the survivors — but every pair
with an empty value is rebuilt in key-only form, so `k=` and `k` collapse to
the same output and are not kept distinct. -/
theorem clean_filter_amended (rule : Rule) (u : Url) (q : List Byte)
    (hq : u.query = some q) (hne : q ≠ []) (hr : rule.rules ≠ []) :
    (∀ k v, (k, v) ∈ (formParse q).filter
        (fun kv => !(rule.rules.any (fun re => re.is_match kv.1))) ↔
      ((k, v) ∈ formParse q ∧ ∀ re ∈ rule.rules, re.is_match k = false))
    ∧ ((formParse q).filter
        (fun kv => !(rule.rules.any (fun re => re.is_match kv.1)))).Sublist
        (formParse q)
    ∧ (∀ k : List Byte, serializePair (k, []) = formEncode k)
    ∧ UrlCleaner.clean rule u =
        (let survivors := (formParse q).filter
            (fun kv => !(rule.rules.any (fun re => re.is_match kv.1)))
         if survivors.isEmpty then .ok { u with query := none }
         else if serializePairs survivors = q then .error .NothingToClear
         else .ok { u with query := some (serializePairs survivors) }) := by
  refine ⟨?_, List.filter_sublist _, fun k => rfl, ?_⟩
  · intro k v
    simp [List.mem_filter, List.any_eq_true]
  · unfold UrlCleaner.clean
    rw [hq]
    have h1 : rule.rules.isEmpty = false := by
      simpa [List.isEmpty_iff] using hr
    have h2 : q.isEmpty = false := by
      simpa [List.isEmpty_iff] using hne
    simp only [h1, h2, Bool.false_eq_true, if_false]

/-- C4 witness: the key-only collapse conjunct of `clean_filter_amended` at a
concrete rule and URL. -/
theorem clean_filter_amended_w :
    serializePair (bytesOf ("a"), []) = formEncode (bytesOf ("a")) :=
  (clean_filter_amended ⟨false, [⟨fun _ => false⟩], []⟩
    { scheme := "https", domain := some ("e.com"), path := [],
      query := some (bytesOf ("a=&b=1")), fragment := none }
    (bytesOf ("a=&b=1")) rfl (by decide) (by simp)).2.2.1 (bytesOf ("a"))

/-- One fold step when the selected character exists and translates. -/
theorem bvFoldStep_some (chars : List Char) (c : Char) (t p1 p2 : Nat)
    (hc : chars.get? p1 = some c) (ht : TRANSLATE c = some t) :
    ∀ a : Nat, bvFoldStep chars (some a) (p1, p2) = some (a + t * 58 ^ p2) := by
  intro a
  have hc2 : chars[p1]? = some c := by
    simpa [List.get?_eq_getElem?] using hc
  simp [bvFoldStep, hc2, ht]

/-- C8 (amended): for every URL with a domain whose first path segment is
`video` and whose second segment is a well-formed identifier (`BV` prefix,
selected characters inside the 58-character alphabet, length reaching the
selected positions), the hook deterministically returns the URL whose path is
rebuilt as `["video", "av{id}", ""]` — the identifier segment carries
`av{id}` with `id = (Σ translate(char at SELECT[i]) · 58^i − 8728348608) XOR
177451812` in wrapping 64-bit arithmetic and `SELECT = [11,10,3,8,4,6]`,
the query is preserved, but a trailing empty segment is appended and any
segments beyond the identifier would be dropped. -/
theorem bv_to_av_decode_amended (u : Url) (d s : String) (rest : List String)
    (t0 t1 t2 t3 t4 t5 : Nat)
    (hd : u.domain = some d)
    (hp : u.path = ("video") :: s :: rest)
    (hbv : ("BV").data.isPrefixOf s.data = true)
    (hlen : ¬ ((2 ^ 64 - 1) - (2 + rest.length) = 12))
    (h0 : (s.data.get? 11).bind TRANSLATE = some t0)
    (h1 : (s.data.get? 10).bind TRANSLATE = some t1)
    (h2 : (s.data.get? 3).bind TRANSLATE = some t2)
    (h3 : (s.data.get? 8).bind TRANSLATE = some t3)
    (h4 : (s.data.get? 4).bind TRANSLATE = some t4)
    (h5 : (s.data.get? 6).bind TRANSLATE = some t5) :
    bv_to_av u = some (.ok { u with path := [("video"),
      ("av") ++ toString ((((t0 + t1 * 58 + t2 * 58 ^ 2 + t3 * 58 ^ 3
          + t4 * 58 ^ 4 + t5 * 58 ^ 5) + 2 ^ 64 - ADD) % 2 ^ 64) ^^^ XOR),
      ("")] }) := by
  obtain ⟨c0, hc0, ht0⟩ := Option.bind_eq_some.mp h0
  obtain ⟨c1, hc1, ht1⟩ := Option.bind_eq_some.mp h1
  obtain ⟨c2, hc2, ht2⟩ := Option.bind_eq_some.mp h2
  obtain ⟨c3, hc3, ht3⟩ := Option.bind_eq_some.mp h3
  obtain ⟨c4, hc4, ht4⟩ := Option.bind_eq_some.mp h4
  obtain ⟨c5, hc5, ht5⟩ := Option.bind_eq_some.mp h5
  simp only [bv_to_av, hd, hp]
  rw [if_neg (show ¬ ("video" ≠ "video") by simp)]
  rw [if_neg (show ¬ (¬ (("BV").data.isPrefixOf s.data) = true
      ∨ (2 ^ 64 - 1) - (2 + rest.length) = 12) by
    push_neg
    refine ⟨by simp [hbv], ?_⟩
    norm_num at hlen ⊢
    exact hlen)]
  have hsel : SELECT.zip (List.range 6)
      = [(11, 0), (10, 1), (3, 2), (8, 3), (4, 4), (6, 5)] := rfl
  rw [hsel]
  simp only [List.foldl_cons, List.foldl_nil]
  rw [bvFoldStep_some _ _ _ _ _ hc0 ht0, bvFoldStep_some _ _ _ _ _ hc1 ht1,
    bvFoldStep_some _ _ _ _ _ hc2 ht2, bvFoldStep_some _ _ _ _ _ hc3 ht3,
    bvFoldStep_some _ _ _ _ _ hc4 ht4, bvFoldStep_some _ _ _ _ _ hc5 ht5]
  have harith : 0 + t0 * 58 ^ 0 + t1 * 58 ^ 1 + t2 * 58 ^ 2 + t3 * 58 ^ 3
      + t4 * 58 ^ 4 + t5 * 58 ^ 5
      = t0 + t1 * 58 + t2 * 58 ^ 2 + t3 * 58 ^ 3 + t4 * 58 ^ 4 + t5 * 58 ^ 5 := by
    ring
  rw [harith]

/-- C8 witness: `bv_to_av_decode_amended` on the reference identifier
`BV1nY411r7o1`, which decodes to `av267692137` with the `p=1` query
preserved. -/
theorem bv_to_av_decode_amended_w :
    bv_to_av
      { scheme := "https", domain := some ("www.bilibili.com"),
        path := [("video"), ("BV1nY411r7o1")],
        query := some (bytesOf ("p=1")), fragment := none }
      = some (.ok
          { scheme := "https", domain := some ("www.bilibili.com"),
            path := [("video"), ("av267692137"), ("")],
            query := some (bytesOf ("p=1")), fragment := none }) :=
  bv_to_av_decode_amended
    { scheme := "https", domain := some ("www.bilibili.com"),
      path := [("video"), ("BV1nY411r7o1")],
      query := some (bytesOf ("p=1")), fragment := none }
    ("www.bilibili.com") ("BV1nY411r7o1") [] 13 2 37 17 25 13
    rfl rfl rfl (by decide) rfl rfl rfl rfl rfl rfl

/-- Helper: `clean` on a non-empty query and non-empty denylist filters,
rebuilds and compares, in one equation. -/
theorem clean_query_eq (rule : Rule) (u : Url) (q : List Byte)
    (hq : u.query = some q) (hne : q ≠ []) (hr : rule.rules ≠ []) :
    UrlCleaner.clean rule u =
      (let survivors := (formParse q).filter
          (fun kv => !(rule.rules.any (fun re => re.is_match kv.1)))
       if survivors.isEmpty then .ok { u with query := none }
       else if serializePairs survivors = q then .error .NothingToClear
       else .ok { u with query := some (serializePairs survivors) }) := by
  unfold UrlCleaner.clean
  rw [hq]
  have h1 : rule.rules.isEmpty = false := by
    simpa [List.isEmpty_iff] using hr
  have h2 : q.isEmpty = false := by
    simpa [List.isEmpty_iff] using hne
  simp only [h1, h2, Bool.false_eq_true, if_false]

/-- Helper: the hook chain over an empty name list is the identity. -/
theorem runHooks_nil (registry : HookRegistry) (u : Url) :
    runHooks registry [] u = .ok u := rfl

/-- C5 (amended): if the rebuilt query is byte-identical to the original,
`clear` returns `NothingToClear`; and a second `clear` on the output of a
first `clear` under the same (non-redirect, hook-free) rule returns
`NothingToClear` provided the cleaned URL still carries a non-empty query
and every parsed pair of the original query had a nonempty key or value —
when cleaning removed the whole query the second run yields `NoQuery`
instead (see the counterexample). -/
theorem clear_idempotence_amended (store : RuleStore) (registry : HookRegistry)
    (resolver : Url → Except String Url) (u u' : Url) (d : String)
    (rule : Rule)
    (hd : u.domain = some d) (hrule : getRule store d = some rule)
    (hred : rule.redirect = false) (hhooks : rule.post_hooks = []) :
    (∀ q, u.query = some q → q ≠ [] → rule.rules ≠ [] →
      serializePairs ((formParse q).filter
        (fun kv => !(rule.rules.any (fun re => re.is_match kv.1)))) = q →
      UrlCleaner.clear store registry resolver u
        = some (.error .NothingToClear))
    ∧ (UrlCleaner.clear store registry resolver u = some (.ok u') →
       (∀ q, u.query = some q → ∀ kv ∈ formParse q, kv.1 ≠ [] ∨ kv.2 ≠ []) →
       ∀ q', u'.query = some q' → q' ≠ [] →
       UrlCleaner.clear store registry resolver u'
         = some (.error .NothingToClear)) := by
  rw [clear_no_redirect store registry resolver u d rule hd hrule hred]
  constructor
  · intro q hq hne hr hser
    rw [UrlCleaner.afterLookup, clean_query_eq rule u q hq hne hr]
    have hsne : ((formParse q).filter
        (fun kv => !(rule.rules.any (fun re => re.is_match kv.1)))) ≠ [] := by
      intro hnil
      rw [hnil] at hser
      exact hne (hser.symm.trans rfl)
    have hsurv : ((formParse q).filter
        (fun kv => !(rule.rules.any (fun re => re.is_match kv.1)))).isEmpty
          = false := by
      rw [Bool.eq_false_iff]
      intro htrue
      exact hsne (List.isEmpty_iff.mp htrue)
    simp only [hsurv, Bool.false_eq_true, if_false, hser, if_pos rfl]
    simp
  · intro hok hpieces q' hq' hne'
    -- the first run went through `clean` (no hooks to forgive `NoQuery`)
    have hclean : UrlCleaner.clean rule u = .ok u' := by
      have hal : UrlCleaner.afterLookup registry rule u = .ok u' :=
        Option.some_inj.mp hok
      rw [UrlCleaner.afterLookup] at hal
      split at hal
      · rename_i newUrl heq
        rw [hhooks, runHooks_nil] at hal
        rw [heq, hal]
      · rw [hhooks] at hal
        simp at hal
      · simp at hal
    -- the first run saw a non-empty denylist and a non-empty query
    have hr : rule.rules ≠ [] := by
      intro hempty
      rw [UrlCleaner.clean, hempty] at hclean
      simp at hclean
    have hrb : rule.rules.isEmpty = false := by
      rw [Bool.eq_false_iff]
      intro htrue
      exact hr (List.isEmpty_iff.mp htrue)
    obtain ⟨q, hq⟩ : ∃ q, u.query = some q := by
      rcases hqu : u.query with _ | q
      · rw [UrlCleaner.clean, hqu] at hclean
        simp [hrb] at hclean
      · exact ⟨q, rfl⟩
    have hne : q ≠ [] := by
      intro hqnil
      subst hqnil
      rw [UrlCleaner.clean, hq] at hclean
      simp [hrb] at hclean
    rw [clean_query_eq rule u q hq hne hr] at hclean
    set survivors := (formParse q).filter
      (fun kv => !(rule.rules.any (fun re => re.is_match kv.1))) with hsdef
    -- identify the query of the cleaned URL with the rebuilt survivors
    simp only at hclean
    by_cases hse : survivors.isEmpty = true
    · rw [if_pos hse] at hclean
      have hu' : u' = { u with query := none } := by
        have := hclean
        simp only [Except.ok.injEq] at this
        exact this.symm
      rw [hu'] at hq'
      simp at hq'
    rw [if_neg hse] at hclean
    by_cases heq : serializePairs survivors = q
    · rw [if_pos heq] at hclean
      exact absurd hclean (by simp)
    rw [if_neg heq] at hclean
    have hu' : u' = { u with query := some (serializePairs survivors) } := by
      simp only [Except.ok.injEq] at hclean
      exact hclean.symm
    have hq'val : q' = serializePairs survivors := by
      rw [hu'] at hq'
      simpa using hq'.symm
    have hd' : u'.domain = some d := by
      rw [hu']
      exact hd
    -- second run: the parsed pairs of the rebuilt query are the survivors
    have hsub : ∀ kv ∈ survivors, kv.1 ≠ [] ∨ kv.2 ≠ [] := by
      intro kv hkv
      rw [hsdef] at hkv
      exact hpieces q hq kv (List.mem_of_mem_filter hkv)
    have hparse : formParse (serializePairs survivors) = survivors :=
      formParse_serializePairs survivors hsub
    have hfix : (formParse (serializePairs survivors)).filter
        (fun kv => !(rule.rules.any (fun re => re.is_match kv.1)))
          = survivors := by
      rw [hparse, hsdef, List.filter_filter]
      exact List.filter_congr (fun kv _ => Bool.and_self _)
    rw [clear_no_redirect store registry resolver u' d rule hd' hrule hred]
    rw [UrlCleaner.afterLookup, clean_query_eq rule u' q' hq' hne' hr]
    rw [hq'val]
    simp only [hfix]
    rw [if_neg (show ¬ survivors.isEmpty = true from hse)]
    simp

/-- C5 witness: the byte-identical conjunct of `clear_idempotence_amended`
at a concrete store and URL whose query `p=1` survives filtering
unchanged. -/
theorem clear_idempotence_amended_w :
    UrlCleaner.clear [(("default"), ⟨false, [⟨fun _ => false⟩], []⟩)] []
      (fun w => .ok w)
      { scheme := "https", domain := some ("e.com"), path := [],
        query := some (bytesOf ("p=1")), fragment := none }
      = some (.error .NothingToClear) :=
  (clear_idempotence_amended [(("default"), ⟨false, [⟨fun _ => false⟩], []⟩)]
    [] (fun w => .ok w)
    { scheme := "https", domain := some ("e.com"), path := [],
      query := some (bytesOf ("p=1")), fragment := none }
    { scheme := "https", domain := some ("e.com"), path := [],
      query := some (bytesOf ("p=1")), fragment := none }
    ("e.com") ⟨false, [⟨fun _ => false⟩], []⟩ rfl rfl rfl rfl).1
    (bytesOf ("p=1")) rfl (by decide) (List.cons_ne_nil _ _) (by decide)
